import Mathlib

/-
Verification of the Two Flags pawn-game decision engine
(src/TwoFlagsGame/agent.py and src/TwoFlagsGame/client.py) against its
natural-language specification.  The Python code is shallowly embedded:
boards are lists of lists of booleans, Python's fallible operations
(indexing, int()) return Option, and the wall clock consulted by the
search is modelled as an arbitrary boolean oracle, one reading per
time-comparison performed by the source.
-/

namespace TwoFlags

/-- An 8x8 occupancy bitmap: 8 rows of 8 booleans, `true` = pawn.
Row 0 is rank 8, row 7 is rank 1 (as in the Python code). -/
abbrev Board := List (List Bool)

/-- The board really has 8 rows of 8 cells. -/
def isBoard (b : Board) : Prop := b.length = 8 ∧ ∀ row ∈ b, row.length = 8

instance (b : Board) : Decidable (isBoard b) := by
  unfold isBoard; infer_instance

/-- Python list-index resolution: indices in `[0, len)` address from the
front, indices in `[-len, -1]` address from the back, anything else is an
IndexError (`none`). -/
def pyIdx (len : Nat) (i : Int) : Option Nat :=
  if 0 ≤ i ∧ i < (len : Int) then some i.toNat
  else if 0 ≤ i + (len : Int) ∧ i < 0 then some (i + (len : Int)).toNat
  else none

/-- Python `l[i]` on a list. -/
def pyNth {α : Type} (l : List α) (i : Int) : Option α :=
  (pyIdx l.length i).bind fun k => l.get? k

/-- Python `b[r][c]` read on a bitmap. -/
def pyGet2 (b : Board) (r c : Int) : Option Bool :=
  (pyNth b r).bind fun row => pyNth row c

/-- Total wrapper of `pyGet2` used where the source guarantees the indices
are in range (all reads inside move generation and evaluation use indices
the source has already bounds-checked); the `false` default is unreachable
there. -/
def pyGetB (b : Board) (r c : Int) : Bool := (pyGet2 b r c).getD false

/-- In-range cell read with `Nat` indices (the common case in the agent's
move generator and evaluator, whose loops range over `0..7`). -/
def cell (b : Board) (r c : Nat) : Bool := (b.getD r []).getD c false

/-- Python `l[i] = v` on one row. -/
def pySetNth {α : Type} (l : List α) (i : Int) (v : α) : Option (List α) :=
  (pyIdx l.length i).map fun k => l.set k v

/-- Python `b[r][c] = v` on a bitmap. -/
def pySetCell (b : Board) (r c : Int) (v : Bool) : Option Board :=
  (pyIdx b.length r).bind fun k =>
    (pySetNth (b.getD k []) c v).map fun row2 => b.set k row2

/-- The all-false 8x8 bitmap (as built by `initialize_boards`). -/
def emptyBoard : Board := List.replicate 8 (List.replicate 8 false)

/-- Embedding of `convert_coord` (agent.py lines 24-31, identical in
client.py): `col = ord(coord[0].lower()) - ord('a')`,
`row = 8 - int(coord[1])`, with no validation.  A string shorter than 2
characters raises IndexError and a non-digit second character makes
`int()` raise ValueError; both are modelled as `none`. -/
def convert_coord (coord : String) : Option (Int × Int) :=
  match coord.data with
  | c0 :: c1 :: _ =>
    let col : Int := (c0.toLower.toNat : Int) - 97
    if c1.isDigit then some (8 - ((c1.toNat : Int) - 48), col) else none
  | _ => none

/-- Embedding of `coord_to_algebraic` (agent.py lines 33-35):
`chr(ord('a') + col) + str(8 - row)`. -/
def coord_to_algebraic (row col : Int) : String :=
  String.mk [Char.ofNat (97 + col).toNat] ++ toString (8 - row)

/-- Accumulating scan behind `pySplit`: `cur` holds the characters of the
token being read, in reverse. -/
def pySplitAux : List Char → List Char → List String
  | [], cur => if cur.isEmpty then [] else [String.mk cur.reverse]
  | ch :: rest, cur =>
    if ch.isWhitespace then
      if cur.isEmpty then pySplitAux rest []
      else String.mk cur.reverse :: pySplitAux rest []
    else pySplitAux rest (ch :: cur)

/-- Python `str.split()` with no argument: split on whitespace runs,
dropping empty pieces. -/
def pySplit (s : String) : List String := pySplitAux s.data []

/-- Embedding of `initialize_boards` (agent.py lines 213-233): tokens after
the first are skipped when shorter than 3 characters; otherwise the first
character (uppercased) selects the bitmap and the rest goes through
`convert_coord`, and the target cell is assigned with Python index
semantics (negative indices wrap).  Any IndexError/ValueError is `none`. -/
def initialize_boards (setup_msg : String) : Option (Board × Board) :=
  let tokens := pySplit setup_msg
  (tokens.drop 1).foldl
    (fun acc token =>
      acc.bind fun wb =>
        if token.length < 3 then some wb
        else
          let color := (token.data.headD ' ').toUpper
          let pos := String.mk (token.data.drop 1)
          (convert_coord pos).bind fun rc =>
            if color = 'W' then
              (pySetCell wb.1 rc.1 rc.2 true).map fun w2 => (w2, wb.2)
            else if color = 'B' then
              (pySetCell wb.2 rc.1 rc.2 true).map fun b2 => (wb.1, b2)
            else some wb)
    (some (emptyBoard, emptyBoard))

/-- Python `move[:n]` (character slicing, no error on short strings). -/
def pyTake (s : String) (n : Nat) : String := String.mk (s.data.take n)

/-- Python `move[n:]`. -/
def pyDrop (s : String) (n : Nat) : String := String.mk (s.data.drop n)

/-- Python `str.lower()` (ASCII case folding, as used on move strings). -/
def pyLower (s : String) : String := String.mk (s.data.map Char.toLower)

/-- Embedding of `execute_move` (agent.py lines 67-87): remove the pawn
from the source square of `own`, capture at the destination in `opp` if
occupied, place the pawn at the destination in `own`.  Failed coordinate
parses or out-of-range indices (which raise in Python) give `none`. -/
def execute_move (move : String) (own opp : Board) : Option (Board × Board) :=
  (convert_coord (pyTake move 2)).bind fun rcf =>
  (convert_coord (pyDrop move 2)).bind fun rct =>
  (pySetCell own rcf.1 rcf.2 false).bind fun own1 =>
  (pyGet2 opp rct.1 rct.2).bind fun occupied =>
  (if occupied then pySetCell opp rct.1 rct.2 false else some opp).bind fun opp1 =>
  (pySetCell own1 rct.1 rct.2 true).map fun own2 => (own2, opp1)

/-- Total wrapper of `execute_move` used inside the search: on the move
strings produced by `generate_all_legal_moves` the parse and the indexing
always succeed, so the default (boards unchanged) is unreachable there;
Python would raise on any other string, which the search never builds. -/
def execT (move : String) (own opp : Board) : Board × Board :=
  (execute_move move own opp).getD (own, opp)

/-- White candidate moves of the pawn at `(r, c)`, in the source's append
order: one-square forward, two-square from row 6, capture left (dc = -1),
capture right (dc = 1) (agent.py lines 101-116). -/
def whiteMovesFrom (own opp : Board) (r c : Nat) : List String :=
  let src := coord_to_algebraic r c
  (if 0 < r && !(cell own (r-1) c || cell opp (r-1) c) then
    [src ++ coord_to_algebraic ((r:Int) - 1) c] else [])
  ++ (if r == 6 && !(cell own (r-1) c || cell opp (r-1) c)
        && !(cell own (r-2) c || cell opp (r-2) c) then
    [src ++ coord_to_algebraic ((r:Int) - 2) c] else [])
  ++ (if 0 < r && 0 < c && cell opp (r-1) (c-1) then
    [src ++ coord_to_algebraic ((r:Int) - 1) ((c:Int) - 1)] else [])
  ++ (if 0 < r && c+1 < 8 && cell opp (r-1) (c+1) then
    [src ++ coord_to_algebraic ((r:Int) - 1) ((c:Int) + 1)] else [])

/-- Black candidate moves of the pawn at `(r, c)`, in the source's append
order (agent.py lines 117-132). -/
def blackMovesFrom (own opp : Board) (r c : Nat) : List String :=
  let src := coord_to_algebraic r c
  (if r+1 < 8 && !(cell own (r+1) c || cell opp (r+1) c) then
    [src ++ coord_to_algebraic ((r:Int) + 1) c] else [])
  ++ (if r == 1 && !(cell own (r+1) c || cell opp (r+1) c)
        && !(cell own (r+2) c || cell opp (r+2) c) then
    [src ++ coord_to_algebraic ((r:Int) + 2) c] else [])
  ++ (if r+1 < 8 && 0 < c && cell opp (r+1) (c-1) then
    [src ++ coord_to_algebraic ((r:Int) + 1) ((c:Int) - 1)] else [])
  ++ (if r+1 < 8 && c+1 < 8 && cell opp (r+1) (c+1) then
    [src ++ coord_to_algebraic ((r:Int) + 1) ((c:Int) + 1)] else [])

/-- Embedding of the agent's `generate_all_legal_moves` (agent.py lines
89-133): row-major scan of `own`, White pawns move up, Black pawns move
down, any other role yields nothing. -/
def generate_all_legal_moves (role : String) (own opp : Board) : List String :=
  (List.range 8).flatMap fun r => (List.range 8).flatMap fun c =>
    if cell own r c then
      if role = "White" then whiteMovesFrom own opp r c
      else if role = "Black" then blackMovesFrom own opp r c
      else []
    else []

/-- One column step of the agent's `check_win_conditions` loop: at each
column, the white promotion row is tested before the black one. -/
def cwcAux (w b : Board) : List Nat → Option String
  | [] => none
  | c :: rest =>
    if cell w 0 c then some "White wins"
    else if cell b 7 c then some "Black wins"
    else cwcAux w b rest

/-- Embedding of the agent's `check_win_conditions` (agent.py lines
135-147): it checks only the two promotion rows and returns `none`
otherwise — it never looks at pawn counts or mobility. -/
def check_win_conditions (w b : Board) : Option String :=
  cwcAux w b (List.range 8)

/-- Whether an opposing pawn sits on row `r` in the pawn's file or one of
the two adjacent files (the inner loop of `is_passed_pawn`). -/
def ccHit (opp : Board) (r col : Nat) : Bool :=
  (0 < col && cell opp r (col-1)) || cell opp r col || (col+1 < 8 && cell opp r (col+1))

/-- Embedding of `is_passed_pawn` (agent.py lines 181-199): a Black pawn
scans all rows strictly below it, a pawn of any other side scans all rows
strictly above it; `own` is unused, as in the source. -/
def is_passed_pawn (own opp : Board) (row col : Nat) (side : String) : Bool :=
  if side = "Black" then (List.range 8).all fun r => !(decide (row < r) && ccHit opp r col)
  else (List.range 8).all fun r => !(decide (r < row) && ccHit opp r col)

/-- The `weights` dictionary that is in effect (agent.py lines 203-211;
the later literal overrides the earlier one at lines 167-175). -/
def win_score : Int := 10000

/-- Weight of the material balance term. -/
def material_weight : Int := 10

/-- Flat bonus for a Black pawn one step from promotion. -/
def promotion_bonus : Int := 1000

/-- Weight of Black pawn advancement. -/
def advancement_weight : Int := 30

/-- Flat bonus for a passed Black pawn. -/
def passed_pawn_weight : Int := 250

/-- Weight of White pawn advancement (a penalty from Black's view). -/
def white_advancement_weight : Int := 30

/-- Flat penalty for a passed White pawn. -/
def white_passed_pawn_weight : Int := 150

/-- Number of `True` cells of a bitmap (`sum(cell for row in b for cell in row)`). -/
def countPawns (b : Board) : Nat := (b.map fun row => row.count true).sum

/-- Embedding of `evaluate_board_dynamic` (agent.py lines 235-269),
computed from Black's perspective and negated unless `role = "Black"`. -/
def evaluate_board_dynamic (white black : Board) (role : String) : Int :=
  let winner := check_win_conditions white black
  let score : Int :=
    if winner = some "Black wins" then win_score
    else if winner = some "White wins" then -win_score
    else
      let base := material_weight * ((countPawns black : Int) - (countPawns white : Int))
      (List.range 8).foldl (fun acc row =>
        (List.range 8).foldl (fun acc2 col =>
          if cell black row col then
            let acc3 := if row = 6 then acc2 + promotion_bonus else acc2
            let adv : Int := (row : Int)
            let acc4 := acc3 + advancement_weight * adv
            if is_passed_pawn black white row col "Black" then
              acc4 + (passed_pawn_weight + advancement_weight * adv)
            else acc4
          else if cell white row col then
            let adv : Int := 7 - (row : Int)
            let acc3 := acc2 - white_advancement_weight * adv
            if is_passed_pawn white black row col "White" then
              acc3 - (white_passed_pawn_weight + white_advancement_weight * adv)
            else acc3
          else acc2) acc) base
  if role = "Black" then score else -score

/-- Python numeric values flowing through the search: the integers of the
evaluator together with `float('-inf')` and `float('inf')`. -/
inductive XS where
  | ninf : XS
  | fin : Int → XS
  | pinf : XS
deriving DecidableEq, Repr

/-- Python `<=` on these values. -/
def XS.le : XS → XS → Bool
  | .ninf, _ => true
  | _, .pinf => true
  | .fin m, .fin n => m ≤ n
  | .pinf, _ => false
  | .fin _, .ninf => false

/-- Python `<` on these values. -/
def XS.lt (a b : XS) : Bool := !(XS.le b a)

/-- Python `max` (returns the first argument on ties; values are equal then). -/
def XS.max (a b : XS) : XS := if XS.lt a b then b else a

/-- Python `min`. -/
def XS.min (a b : XS) : XS := if XS.lt b a then b else a

/-- Embedding of `AIAgent._evaluate_position` (agent.py lines 578-591):
+10 plus a forwardness bonus per White pawn, minus the same per Black pawn. -/
def evalPos (white black : Board) : Int :=
  let ws := (List.range 8).foldl (fun acc r =>
    (List.range 8).foldl (fun a2 c =>
      if cell white r c then a2 + (10 + (7 - (r:Int))) else a2) acc) 0
  let bs := (List.range 8).foldl (fun acc r =>
    (List.range 8).foldl (fun a2 c =>
      if cell black r c then a2 + (10 + (r:Int)) else a2) acc) 0
  ws - bs

/-- Embedding of `AIAgent._hash_position` (agent.py lines 615-622). -/
def hashPos (w b : Board) (role : String) : String :=
  role ++ String.join ((List.range 8).flatMap fun r => (List.range 8).map fun c =>
    (if cell w r c then "1" else "0") ++ (if cell b r c then "1" else "0"))

/-- State threaded through a search call: the transposition table
(`self.transposition_table`, an overwrite dictionary modelled as an
association list whose most recent entry wins) and the index of the next
wall-clock reading. -/
structure SState where
  table : List (String × Nat × XS × Option String)
  tick : Nat
deriving Repr, DecidableEq

/-- The fresh state of a newly constructed agent. -/
def s0 : SState := ⟨[], 0⟩

/-- One evaluation of `time.time() - self.start_time > self.time_limit`:
the clock oracle gives the outcome of the next reading. -/
def checkTime (clock : Nat → Bool) (s : SState) : Bool × SState :=
  (clock s.tick, { s with tick := s.tick + 1 })

/-- The White (maximizing) branch of the move loop inside
`AIAgent._alpha_beta` (agent.py lines 548-560): per move a time check (a
break on overrun), a simulated `execute_move` on copies, a recursive
score for "Black" (passed in as `f`), then max/alpha updates and the
beta cutoff. -/
def abLoopW (clock : Nat → Bool)
    (f : Board → Board → XS → XS → SState → XS × SState) :
    List String → Board → Board → XS → XS → XS → SState → XS × SState
  | [], _, _, best, _, _, s => (best, s)
  | move :: rest, w, b, best, α, β, s =>
    let ts := checkTime clock s
    if ts.1 then (best, ts.2)
    else
      let wb := execT move w b
      let rs := f wb.1 wb.2 α β ts.2
      let best2 := XS.max best rs.1
      let α2 := XS.max α best2
      if XS.le β α2 then (best2, rs.2)
      else abLoopW clock f rest w b best2 α2 β rs.2

/-- The Black (minimizing) branch of the move loop inside
`AIAgent._alpha_beta` (agent.py lines 561-573); note that the source
executes the move with the black bitmap as the mover's own board. -/
def abLoopB (clock : Nat → Bool)
    (f : Board → Board → XS → XS → SState → XS × SState) :
    List String → Board → Board → XS → XS → XS → SState → XS × SState
  | [], _, _, best, _, _, s => (best, s)
  | move :: rest, w, b, best, α, β, s =>
    let ts := checkTime clock s
    if ts.1 then (best, ts.2)
    else
      let bw := execT move b w
      let rs := f bw.2 bw.1 α β ts.2
      let best2 := XS.min best rs.1
      let β2 := XS.min β rs.1
      if XS.le β2 α then (best2, rs.2)
      else abLoopB clock f rest w b best2 α β2 rs.2

/-- The body of `AIAgent._alpha_beta` below the depth-zero/terminal early
returns (agent.py lines 537-576): transposition lookup (trusted only when
the stored depth is at least the requested one), move generation — which,
as in the source (line 544), always passes the white bitmap as the
mover's own board —, the stalemate sentinels, the role-split move loop,
and the table store. -/
def abStep (clock : Nat → Bool)
    (f : Board → Board → XS → XS → String → SState → XS × SState)
    (d : Nat) (w b : Board) (α β : XS) (role : String) (s : SState) : XS × SState :=
  let key := hashPos w b role
  let proceed : SState → XS × SState := fun s1 =>
    let moves := generate_all_legal_moves role w b
    if moves.isEmpty then
      (if role = "White" then (XS.fin (-9999), s1) else (XS.fin 9999, s1))
    else
      let bs :=
        if role = "White" then
          abLoopW clock (fun w2 b2 a2 b3 s2 => f w2 b2 a2 b3 "Black" s2)
            moves w b XS.ninf α β s1
        else
          abLoopB clock (fun w2 b2 a2 b3 s2 => f w2 b2 a2 b3 "White" s2)
            moves w b XS.pinf α β s1
      (bs.1, { bs.2 with table := (key, d, bs.1, none) :: bs.2.table })
  match s.table.lookup key with
  | some entry => if d ≤ entry.1 then (entry.2.1, s) else proceed s
  | none => proceed s

/-- Embedding of `AIAgent._alpha_beta` (agent.py lines 528-576).  The
depth is the remaining search depth; the recursion is on it.  A time
overrun or a terminal/depth-zero node returns the static evaluation. -/
def _alpha_beta (clock : Nat → Bool) :
    Nat → Board → Board → XS → XS → String → SState → XS × SState
  | 0, w, b, _, _, _, s =>
    let ts := checkTime clock s
    (XS.fin (evalPos w b), ts.2)
  | d+1, w, b, α, β, role, s =>
    let ts := checkTime clock s
    if ts.1 then (XS.fin (evalPos w b), ts.2)
    else if (check_win_conditions w b).isSome then (XS.fin (evalPos w b), ts.2)
    else abStep clock (_alpha_beta clock d) (d+1) w b α β role ts.2

/-- The White branch of the root move loop of `AIAgent._iterative_search`
(agent.py lines 500-515): strict improvement updates the best move, alpha
follows the best score, beta stays at its initial value. -/
def iterLoopW (clock : Nat → Bool)
    (f : Board → Board → XS → XS → SState → XS × SState) :
    List String → Board → Board → Option String → XS → XS → XS → SState →
      Option String × XS × SState
  | [], _, _, bm, bs, _, _, s => (bm, bs, s)
  | move :: rest, w, b, bm, bs, α, β, s =>
    let ts := checkTime clock s
    if ts.1 then (bm, bs, ts.2)
    else
      let wb := execT move w b
      let rs := f wb.1 wb.2 α β ts.2
      let upd := if XS.lt bs rs.1 then (some move, rs.1) else (bm, bs)
      let α2 := XS.max α upd.2
      if XS.le β α2 then (upd.1, upd.2, rs.2)
      else iterLoopW clock f rest w b upd.1 upd.2 α2 β rs.2

/-- The Black branch of the root move loop of `AIAgent._iterative_search`
(agent.py lines 516-524). -/
def iterLoopB (clock : Nat → Bool)
    (f : Board → Board → XS → XS → SState → XS × SState) :
    List String → Board → Board → Option String → XS → XS → XS → SState →
      Option String × XS × SState
  | [], _, _, bm, bs, _, _, s => (bm, bs, s)
  | move :: rest, w, b, bm, bs, α, β, s =>
    let ts := checkTime clock s
    if ts.1 then (bm, bs, ts.2)
    else
      let bw := execT move b w
      let rs := f bw.2 bw.1 α β ts.2
      let upd := if XS.lt rs.1 bs then (some move, rs.1) else (bm, bs)
      let β2 := XS.min β upd.2
      if XS.le β2 α then (upd.1, upd.2, rs.2)
      else iterLoopB clock f rest w b upd.1 upd.2 α β2 rs.2

/-- The legal moves of the agent's own side
(`AIAgent._generate_legal_moves_for_role`, agent.py lines 599-603). -/
def movesForRole (role : String) (w b : Board) : List String :=
  if role = "White" then generate_all_legal_moves "White" w b
  else generate_all_legal_moves "Black" b w

/-- Embedding of `AIAgent._iterative_search` (agent.py lines 490-526):
with no legal move it returns `("exit", ±9999)`; otherwise it runs the
root alpha-beta loop at the given depth (children searched at depth - 1). -/
def _iterative_search (clock : Nat → Bool) (role : String) (w b : Board)
    (depth : Nat) (s : SState) : Option String × XS × SState :=
  let moves := movesForRole role w b
  if moves.isEmpty then
    (some "exit", XS.fin (if role = "White" then -9999 else 9999), s)
  else if role = "White" then
    iterLoopW clock (fun w2 b2 a2 b3 s2 => _alpha_beta clock (depth - 1) w2 b2 a2 b3 "Black" s2)
      moves w b none XS.ninf XS.ninf XS.pinf s
  else
    iterLoopB clock (fun w2 b2 a2 b3 s2 => _alpha_beta clock (depth - 1) w2 b2 a2 b3 "White" s2)
      moves w b none XS.pinf XS.ninf XS.pinf s

/-- Embedding of `AIAgent._find_immediate_promotion` (agent.py lines
605-613): the first move whose destination row is the promotion row of
the agent's role.  The moves fed to it always parse, as in the source. -/
def _find_immediate_promotion (role : String) (moves : List String) : Option String :=
  moves.find? fun move =>
    match convert_coord (pyDrop move 2) with
    | some rc => (role == "White" && rc.1 == 0) || (role == "Black" && rc.1 == 7)
    | none => false

/-- The iterative-deepening loop of `AIAgent.make_move` (agent.py lines
465-472): at each depth the candidate replaces the best move when it is
not `None`, and a time check after each iteration may break. -/
def deepenLoop (clock : Nat → Bool) (role : String) (w b : Board) :
    List Nat → String → XS → Nat → SState → String × XS × Nat × SState
  | [], bm, bs, dr, s => (bm, bs, dr, s)
  | d :: rest, bm, bs, dr, s =>
    let cand := _iterative_search clock role w b d s
    let upd : String × XS × Nat :=
      match cand.1 with
      | some m => (m, cand.2.1, d)
      | none => (bm, bs, dr)
    let ts := checkTime clock cand.2.2
    if ts.1 then (upd.1, upd.2.1, upd.2.2, ts.2)
    else deepenLoop clock role w b rest upd.1 upd.2.1 upd.2.2 ts.2

/-- Applies the finally chosen move to the agent's own boards, with the
board roles swapped for Black, as in `AIAgent.make_move`. -/
def applyOwnMove (role : String) (move : String) (w b : Board) : Board × Board :=
  if role = "White" then execT move w b
  else
    let bw := execT move b w
    (bw.2, bw.1)

/-- Embedding of `AIAgent.make_move` (agent.py lines 422-488): depth cap 5
before the 10th game move and 11 from then on; a loss verdict when no
legal move exists; an immediate promotion short-circuits the search;
otherwise iterative deepening from depth 1, starting from the first legal
move as the default best.  Returns the chosen move (or verdict) together
with the updated boards and search state. -/
def make_move (clock : Nat → Bool) (role : String) (w b : Board)
    (move_count : Nat) (s : SState) : String × Board × Board × SState :=
  let max_depth := if move_count < 10 then 5 else 11
  let moves := movesForRole role w b
  if moves.isEmpty then
    let opponent := if role = "Black" then "White" else "Black"
    ("win: " ++ opponent, w, b, s)
  else
    match _find_immediate_promotion role moves with
    | some wm =>
      let wb := applyOwnMove role wm w b
      (wm, wb.1, wb.2, s)
    | none =>
      let bs0 := if role = "White" then XS.ninf else XS.pinf
      let run := deepenLoop clock role w b ((List.range max_depth).map (· + 1))
        (moves.headD "") bs0 1 s
      if pyLower run.1 ≠ "exit" then
        let wb := applyOwnMove role run.1 w b
        (run.1, wb.1, wb.2, run.2.2.2)
      else (run.1, w, b, run.2.2.2)

/-- The side to move after `turn` moves. -/
def flipTurn (turn : String) : String := if turn = "White" then "Black" else "White"

/-- Modelled from the spec (sections 4.5 and 8): the reference
"exhaustive minimax of the same depth with no pruning and no
transposition table" that the alpha-beta search is claimed to refine.
White maximizes, Black minimizes, leaves and terminal positions take the
static evaluation, a side with no legal move scores the same sentinels
the search uses.  Each side's moves are generated with that side's own
bitmap, as everywhere else in the repository. -/
def minimax_spec : Nat → Board → Board → String → Int
  | 0, w, b, _ => evalPos w b
  | d+1, w, b, turn =>
    if (check_win_conditions w b).isSome then evalPos w b
    else
      match movesForRole turn w b with
      | [] => if turn = "White" then -9999 else 9999
      | m :: rest =>
        let vals := (m :: rest).map fun mv =>
          let wb := applyOwnMove turn mv w b
          minimax_spec d wb.1 wb.2 (flipTurn turn)
        match vals with
        | [] => if turn = "White" then -9999 else 9999
        | v :: vs => if turn = "White" then vs.foldl Max.max v else vs.foldl Min.min v

/-- Modelled from the spec: the root of the exhaustive minimax — the
first root move attaining the optimal value (move order is the
deterministic generation order, spec section 4.2). -/
def minimax_spec_root (d : Nat) (w b : Board) (role : String) : Option String × Int :=
  match movesForRole role w b with
  | [] => (none, if role = "White" then -9999 else 9999)
  | m :: rest =>
    let value : String → Int := fun mv =>
      let wb := applyOwnMove role mv w b
      minimax_spec (d - 1) wb.1 wb.2 (flipTurn role)
    rest.foldl
      (fun acc mv =>
        let v := value mv
        if role = "White" then (if acc.2 < v then (some mv, v) else acc)
        else (if v < acc.2 then (some mv, v) else acc))
      (some m, value m)

/-- Embedding of client.py's `is_move_legal` (client.py lines 102-221):
format check, coordinate parse (a parse failure is caught and yields
`False`), source occupancy, then the role-specific movement rules.
Board reads use Python index semantics (negative indices wrap). -/
def client_is_move_legal (move : String) (role : String) (own opp : Board) : Bool :=
  if move.length ≠ 4 then false
  else
    match convert_coord (pyTake move 2), convert_coord (pyDrop move 2) with
    | some rcf, some rct =>
      let fr := rcf.1; let fc := rcf.2
      let tr := rct.1; let tc := rct.2
      let row_diff := tr - fr
      let col_diff := tc - fc
      if !(pyGetB own fr fc) then false
      else if role = "White" then
        if 0 ≤ row_diff then false
        else if col_diff = 0 then
          if row_diff = -1 then !(pyGetB own tr tc || pyGetB opp tr tc)
          else if row_diff = -2 then
            if fr ≠ 6 then false
            else if pyGetB own (fr-1) fc || pyGetB opp (fr-1) fc then false
            else !(pyGetB own tr tc || pyGetB opp tr tc)
          else false
        else if col_diff.natAbs = 1 ∧ row_diff = -1 then pyGetB opp tr tc
        else false
      else if role = "Black" then
        if row_diff ≤ 0 then false
        else if col_diff = 0 then
          if row_diff = 1 then !(pyGetB own tr tc || pyGetB opp tr tc)
          else if row_diff = 2 then
            if fr ≠ 1 then false
            else if pyGetB own (fr+1) fc || pyGetB opp (fr+1) fc then false
            else !(pyGetB own tr tc || pyGetB opp tr tc)
          else false
        else if col_diff.natAbs = 1 ∧ row_diff = 1 then pyGetB opp tr tc
        else false
      else false
    | _, _ => false

/-- White candidates of client.py's move generator for the pawn at
`(r, c)`, each filtered through the legality oracle (client.py lines
243-267). -/
def clientWhiteCand (own opp : Board) (r c : Nat) : List String :=
  let src := coord_to_algebraic r c
  let keep : String → List String := fun cand =>
    if client_is_move_legal cand "White" own opp then [cand] else []
  (if 0 < r then keep (src ++ coord_to_algebraic ((r:Int) - 1) c) else [])
  ++ (if r == 6 then keep (src ++ coord_to_algebraic ((r:Int) - 2) c) else [])
  ++ (if 0 < r && 0 < c then keep (src ++ coord_to_algebraic ((r:Int) - 1) ((c:Int) - 1)) else [])
  ++ (if 0 < r && c+1 < 8 then keep (src ++ coord_to_algebraic ((r:Int) - 1) ((c:Int) + 1)) else [])

/-- Black candidates of client.py's move generator for the pawn at
`(r, c)` (client.py lines 268-292). -/
def clientBlackCand (own opp : Board) (r c : Nat) : List String :=
  let src := coord_to_algebraic r c
  let keep : String → List String := fun cand =>
    if client_is_move_legal cand "Black" own opp then [cand] else []
  (if r+1 < 8 then keep (src ++ coord_to_algebraic ((r:Int) + 1) c) else [])
  ++ (if r == 1 then keep (src ++ coord_to_algebraic ((r:Int) + 2) c) else [])
  ++ (if r+1 < 8 && 0 < c then keep (src ++ coord_to_algebraic ((r:Int) + 1) ((c:Int) - 1)) else [])
  ++ (if r+1 < 8 && c+1 < 8 then keep (src ++ coord_to_algebraic ((r:Int) + 1) ((c:Int) + 1)) else [])

/-- Embedding of client.py's `generate_all_legal_moves` (lines 232-293). -/
def client_generate_all_legal_moves (role : String) (own opp : Board) : List String :=
  (List.range 8).flatMap fun r => (List.range 8).flatMap fun c =>
    if cell own r c then
      if role = "White" then clientWhiteCand own opp r c
      else if role = "Black" then clientBlackCand own opp r c
      else []
    else []

/-- Embedding of client.py's `check_win_conditions` (lines 295-326):
promotion rows first (all white columns, then all black columns), then
pawn counts (an empty black count beats an empty white count), then
stalemate. -/
def client_check_win_conditions (w b : Board) : Option String :=
  if (List.range 8).any (fun c => cell w 0 c) then some "White wins"
  else if (List.range 8).any (fun c => cell b 7 c) then some "Black wins"
  else if countPawns b == 0 then some "White wins"
  else if countPawns w == 0 then some "Black wins"
  else if (client_generate_all_legal_moves "White" w b).isEmpty then some "Black wins"
  else if (client_generate_all_legal_moves "Black" b w).isEmpty then some "White wins"
  else none

/-- A root child of the Monte Carlo tree: its move, visit count and
accumulated reward. -/
structure MCTSChild where
  move : String
  visits : Nat
  reward : Int
deriving DecidableEq, Repr

/-- Modelled from the spec (section 4.6): the repository has no MCTS
implementation under src/ — only the spec describes the engine — so its
final move selection is modelled from the spec's words: after the budget
expires, the root child with the highest visit count is chosen (the first
such child on ties), not the child with the highest average reward. -/
def mcts_final_selection (children : List MCTSChild) : Option MCTSChild :=
  children.foldl
    (fun acc c =>
      match acc with
      | none => some c
      | some best => if best.visits < c.visits then some c else some best)
    none

/-- A board with a single pawn, at row `r`, column `c`. -/
def oneAt (r c : Nat) : Board :=
  emptyBoard.set r ((List.replicate 8 false).set c true)

/-- A clock oracle on which no deadline check ever triggers. -/
def noClock : Nat → Bool := fun _ => false

/-- A clock oracle on which every deadline check triggers (a time budget
already exhausted, as with a very small limit). -/
def lateClock : Nat → Bool := fun _ => true

/-- Both bitmaps of a pair are disjoint: no square holds a pawn of each
side at once. -/
def disjointB (w b : Board) : Prop :=
  ∀ r < 8, ∀ c < 8, ¬(cell w r c = true ∧ cell b r c = true)

instance (w b : Board) : Decidable (disjointB w b) := by
  unfold disjointB; infer_instance

/-- A well-formed move string: 4 characters whose two halves parse to
on-board coordinates. -/
def wellFormedMove (m : String) : Prop :=
  m.length = 4 ∧
  ∃ rf cf rt ct : Int,
    0 ≤ rf ∧ rf < 8 ∧ 0 ≤ cf ∧ cf < 8 ∧ 0 ≤ rt ∧ rt < 8 ∧ 0 ≤ ct ∧ ct < 8 ∧
    convert_coord (pyTake m 2) = some (rf, cf) ∧
    convert_coord (pyDrop m 2) = some (rt, ct)

/-- White pawn on a2, nothing else (row 6, column 0). -/
def wA2 : Board := oneAt 6 0

/-- Black pawn on h7, nothing else (row 1, column 7). -/
def bH7 : Board := oneAt 1 7

/-- White pawn on a7 (one step from promotion). -/
def wA7 : Board := oneAt 1 0

/-- White pawns on a2 and h2: the symmetric tie position. -/
def wTie : Board := emptyBoard.set 6 (((List.replicate 8 false).set 0 true).set 7 true)

/-- Black pawns on a7 and h7: the symmetric tie position. -/
def bTie : Board := emptyBoard.set 1 (((List.replicate 8 false).set 0 true).set 7 true)

/-- A lone black pawn in the middle of the board (row 3, column 3 = d5). -/
def bLone : Board := oneAt 3 3

/-- Eight black pawns on row 6 (rank 2), one step from promotion. -/
def bRow6Full : Board := emptyBoard.set 6 (List.replicate 8 true)

/-- The valid algebraic string with file index `i` and rank `j + 1`
(e.g. `i = 0, j = 1` is "a2"). -/
def algString (i j : Fin 8) : String :=
  String.mk [Char.ofNat (97 + (i : Nat)), Char.ofNat (49 + (j : Nat))]

/-- The agent's win check can only produce these three results. -/
theorem cwcAux_mem (w b : Board) (l : List Nat) :
    cwcAux w b l = none ∨ cwcAux w b l = some "White wins" ∨
      cwcAux w b l = some "Black wins" := by
  induction l with
  | nil => left; rfl
  | cons c rest ih =>
    simp only [cwcAux]
    split
    · right; left; rfl
    · split
      · right; right; rfl
      · exact ih

/-- CLAIM C10.  `initialize_boards` skips only tokens shorter than 3
characters; the token "Wa9" is neither skipped nor rejected: its rank
digit 9 makes `convert_coord` return row -1, and the Python negative
index wraps to row 7, so "Setup Wa9" yields a white bitmap that is true
exactly at row 7, column 0, with the black bitmap empty. -/
theorem C10_initialize_boards_wraps :
    initialize_boards "Setup Wa9" = some (oneAt 7 0, emptyBoard) := by decide

/-- CLAIM C8.  Round-trip identity on all 64 cells: for every valid
algebraic string (letter in a..h, digit in 1..8), feeding the result of
`convert_coord` back through `coord_to_algebraic` returns the original
string. -/
theorem C8_roundtrip :
    ∀ i j : Fin 8,
      (convert_coord (algString i j)).map (fun rc => coord_to_algebraic rc.1 rc.2) =
        some (algString i j) := by decide

/-- CLAIM C4, counterexample.  The claim says `convert_coord` fails with
an `InvalidCoordinate` error on every string outside the a..h/1..8
grammar, but the function performs no validation at all: on "a9" (rank 9
is off the board) it succeeds and returns row -1, column 0. -/
theorem C4_counterexample : convert_coord "a9" = some (-1, 0) := by decide

/-- CLAIM C4, amended.  `convert_coord` validates nothing: any string
with at least 2 characters whose second character is a decimal digit is
accepted and mapped to row = 8 - digit and col = lowercased letter offset
from 'a' (so valid inputs get exactly the claimed pair, but off-board
inputs like "a9" are accepted as well; only a missing or non-digit second
character fails, with IndexError/ValueError rather than a dedicated
InvalidCoordinate). -/
theorem C4_convert_coord_no_validation (c0 c1 : Char) (rest : List Char)
    (h : c1.isDigit = true) :
    convert_coord (String.mk (c0 :: c1 :: rest)) =
      some (8 - ((c1.toNat : Int) - 48), (c0.toLower.toNat : Int) - 97) := by
  simp [convert_coord, h]

/-- CLAIM C4, witness for the amended theorem at the valid input "b3". -/
theorem C4_witness :
    ('3' : Char).isDigit = true ∧ convert_coord "b3" = some (5, 1) :=
  ⟨by decide, by
    have h := C4_convert_coord_no_validation 'b' '3' [] (by decide)
    simpa using h⟩

/-- CLAIM C3.  On the failing input (White pawn a2, Black pawn h7, depth
2, empty transposition table, clock never expiring) the root alpha-beta
search values the position at -13 while the exhaustive same-depth minimax
values it at 0 (both pick a2a4): `AIAgent._alpha_beta` generates the
opponent's replies with the white bitmap as the mover's own board
(agent.py line 544), so Black's "reply" moves White's pawn backwards
instead of advancing h7.  Every sibling function (`minimax`,
`_iterative_search`, `simulate_move`, `_generate_legal_moves_for_role`)
swaps the boards by role, so the claimed equivalence is the clear intent
and line 544 a slip. -/
theorem C3_search_differs_from_minimax :
    (_iterative_search noClock "White" wA2 bH7 2 s0).2.1 = XS.fin (-13) ∧
      minimax_spec_root 2 wA2 bH7 "White" = (some "a2a4", 0) := by decide

/-- CLAIM C5, counterexample.  Move selection is a deterministic function
of the position: agent.py imports `random` but never calls it, and
`_iterative_search` keeps a move only on strict score improvement.  In
the symmetric position (White a2 h2 vs Black a7 h7) the moves a2a4 and
h2h4 tie at the top level, yet the selection is uniquely the complete
state below — no two runs can return different tied moves. -/
theorem C5_counterexample :
    (_iterative_search noClock "White" wTie bTie 1 s0) =
        (some "a2a4", XS.fin 2, { table := [], tick := 8 }) ∧
      evalPos (execT "h2h4" wTie bTie).1 (execT "h2h4" wTie bTie).2 =
        evalPos (execT "a2a4" wTie bTie).1 (execT "a2a4" wTie bTie).2 := by decide

/-- CLAIM C5, amended.  Tie-breaking is deterministic, not randomized:
among root moves with equal top-level evaluation the first one in the
move-generation order is chosen (here a2a4, which precedes the
equally-scored h2h4 in the generated list). -/
theorem C5_first_tied_move_kept :
    movesForRole "White" wTie bTie = ["a2a3", "a2a4", "h2h3", "h2h4"] ∧
      (_iterative_search noClock "White" wTie bTie 1 s0).1 = some "a2a4" ∧
      evalPos (execT "a2a4" wTie bTie).1 (execT "a2a4" wTie bTie).2 =
        evalPos (execT "h2h4" wTie bTie).1 (execT "h2h4" wTie bTie).2 := by decide

/-- CLAIM C6, counterexample.  The win constant does not dominate the
heuristic terms: with no white pawn and eight black pawns on row 6 the
position is non-terminal for `check_win_conditions`, yet the evaluation
is 12960, above `win_score` = 10000. -/
theorem C6_counterexample :
    check_win_conditions emptyBoard bRow6Full = none ∧
      evaluate_board_dynamic emptyBoard bRow6Full "Black" = 12960 ∧
      win_score < 12960 := by decide

/-- CLAIM C6, amended.  Terminal positions do evaluate to exactly plus or
minus `win_score`; the domination half of the claim is refuted by the
counterexample above. -/
theorem C6_terminal_value (w b : Board) (role : String)
    (h : (check_win_conditions w b).isSome) :
    evaluate_board_dynamic w b role = win_score ∨
      evaluate_board_dynamic w b role = -win_score := by
  rcases cwcAux_mem w b (List.range 8) with h0 | h1 | h1
  · rw [show check_win_conditions w b = cwcAux w b (List.range 8) from rfl, h0] at h
    simp at h
  all_goals
    simp only [evaluate_board_dynamic,
      show check_win_conditions w b = cwcAux w b (List.range 8) from rfl, h1]
    by_cases hr : role = "Black" <;> simp [hr, win_score]

/-- CLAIM C6, witness for the amended theorem: a white pawn on row 0 is a
terminal position and evaluates to -win_score from Black's perspective. -/
theorem C6_witness :
    (check_win_conditions (oneAt 0 0) emptyBoard).isSome = true ∧
      (evaluate_board_dynamic (oneAt 0 0) emptyBoard "Black" = win_score ∨
        evaluate_board_dynamic (oneAt 0 0) emptyBoard "Black" = -win_score) :=
  ⟨by decide, C6_terminal_value (oneAt 0 0) emptyBoard "Black" (by decide)⟩

/-- CLAIM C1, counterexample.  The agent's `check_win_conditions`
(agent.py lines 135-147, the symbol the claim names first) checks only
the two promotion rows: with an empty white bitmap and a lone black pawn
in mid-board it returns `none` instead of reporting that White (zero
pawns) has lost. -/
theorem C1_counterexample : check_win_conditions emptyBoard bLone = none := by decide

/-- A bitmap whose pawn count is zero has no occupied cell. -/
theorem cell_of_countPawns_zero (b : Board) (h : countPawns b = 0) (r c : Nat) :
    cell b r c = false := by
  have hall : ∀ row ∈ b, row.count true = 0 := by
    intro row hrow
    have hz := List.sum_eq_zero_iff.mp h
    exact hz _ (List.mem_map.mpr ⟨row, hrow, rfl⟩)
  unfold cell
  by_cases hr : r < b.length
  · rw [List.getD_eq_getElem _ _ hr]
    have hrow : b[r] ∈ b := List.getElem_mem hr
    have hcnt := hall _ hrow
    by_cases hc : c < b[r].length
    · rw [List.getD_eq_getElem _ _ hc]
      rcases Bool.eq_false_or_eq_true (b[r])[c] with ht | hf
      · exfalso
        rw [List.count_eq_zero] at hcnt
        exact hcnt (ht ▸ List.getElem_mem hc)
      · exact hf
    · exact List.getD_eq_default _ _ (Nat.le_of_not_lt hc)
  · rw [List.getD_eq_default _ _ (Nat.le_of_not_lt hr)]
    rfl

/-- A row whose cells are all false yields a false `any` over the 8
columns. -/
theorem any_row_false (b : Board) (row : Nat) (h : ∀ c < 8, cell b row c = false) :
    ((List.range 8).any fun c => cell b row c) = false := by
  rw [List.any_eq_false]
  intro c hc
  rw [h c (List.mem_range.mp hc)]
  simp

/-- CLAIM C1, amended.  The zero-pawn loss rule lives only in client.py's
`check_win_conditions`: when neither side has a pawn on its promotion
row, a black count of zero yields "White wins" (whatever White's count),
and a white count of zero yields "Black wins" provided Black still has at
least one pawn (with both counts zero the black check fires first and
White is reported the winner).  The agent's function of the same name
never reports it (counterexample above). -/
theorem C1_client_zero_pawns_lose (w b : Board) (hw : isBoard w) (hb : isBoard b)
    (hpw : ∀ c < 8, cell w 0 c = false) (hpb : ∀ c < 8, cell b 7 c = false) :
    (countPawns b = 0 → client_check_win_conditions w b = some "White wins") ∧
    (countPawns w = 0 → countPawns b ≠ 0 →
      client_check_win_conditions w b = some "Black wins") := by
  constructor
  · intro h0
    unfold client_check_win_conditions
    rw [any_row_false w 0 hpw, any_row_false b 7 hpb]
    simp [h0]
  · intro hw0 hbn
    unfold client_check_win_conditions
    rw [any_row_false w 0 hpw, any_row_false b 7 hpb]
    have hbne : (countPawns b == 0) = false := by
      simpa using hbn
    simp [hbne, hw0]

/-- CLAIM C1, witness for the amended theorem: no white pawns against a
lone black pawn is reported as a Black win by client.py. -/
theorem C1_witness :
    (countPawns bLone = 0 →
        client_check_win_conditions emptyBoard bLone = some "White wins") ∧
      (countPawns emptyBoard = 0 → countPawns bLone ≠ 0 →
        client_check_win_conditions emptyBoard bLone = some "Black wins") :=
  C1_client_zero_pawns_lose emptyBoard bLone (by decide) (by decide)
    (by decide) (by decide)

/-- The fold behind `mcts_final_selection`, started at a child `c`,
returns a child of `c :: l` whose visit count dominates `c :: l`. -/
theorem mctsFold_spec (l : List MCTSChild) :
    ∀ c : MCTSChild, ∃ r,
      l.foldl (fun acc x =>
          match acc with
          | none => some x
          | some best => if best.visits < x.visits then some x else some best)
        (some c) = some r ∧
      (r = c ∨ r ∈ l) ∧ c.visits ≤ r.visits ∧ ∀ d ∈ l, d.visits ≤ r.visits := by
  induction l with
  | nil =>
    intro c
    exact ⟨c, rfl, Or.inl rfl, Nat.le_refl _, by intro d hd; cases hd⟩
  | cons x rest ih =>
    intro c
    by_cases hlt : c.visits < x.visits
    · obtain ⟨r, hfold, hmem, hle, hall⟩ := ih x
      refine ⟨r, ?_, ?_, ?_, ?_⟩
      · simpa [List.foldl_cons, hlt] using hfold
      · rcases hmem with h | h
        · exact Or.inr (h ▸ List.mem_cons_self x rest)
        · exact Or.inr (List.mem_cons_of_mem x h)
      · exact Nat.le_trans (Nat.le_of_lt hlt) hle
      · intro d hd
        rcases List.mem_cons.mp hd with h | h
        · exact h ▸ hle
        · exact hall d h
    · obtain ⟨r, hfold, hmem, hle, hall⟩ := ih c
      refine ⟨r, ?_, ?_, hle, ?_⟩
      · simpa [List.foldl_cons, hlt] using hfold
      · rcases hmem with h | h
        · exact Or.inl h
        · exact Or.inr (List.mem_cons_of_mem x h)
      · intro d hd
        rcases List.mem_cons.mp hd with h | h
        · exact h ▸ Nat.le_trans (Nat.le_of_not_lt hlt) hle
        · exact hall d h

/-- CLAIM C9.  After the budget expires, the modelled MCTS final
selection returns a root child with the highest visit count among all
children — not the child with the highest average reward. -/
theorem C9_mcts_picks_most_visited (children : List MCTSChild)
    (h : children ≠ []) :
    ∃ r, mcts_final_selection children = some r ∧ r ∈ children ∧
      ∀ d ∈ children, d.visits ≤ r.visits := by
  match children, h with
  | c :: rest, _ =>
    obtain ⟨r, hfold, hmem, hle, hall⟩ := mctsFold_spec rest c
    refine ⟨r, ?_, ?_, ?_⟩
    · simpa [mcts_final_selection, List.foldl_cons] using hfold
    · rcases hmem with hh | hh
      · exact hh ▸ List.mem_cons_self c rest
      · exact List.mem_cons_of_mem c hh
    · intro d hd
      rcases List.mem_cons.mp hd with hh | hh
      · exact hh ▸ hle
      · exact hall d hh

/-- CLAIM C9, witness: with a child of 10 visits and reward 1 against a
child of 3 visits and reward 3 (the higher average reward), the
most-visited child is selected. -/
theorem C9_witness :
    ∃ r, mcts_final_selection [⟨"a2a3", 10, 1⟩, ⟨"h7h5", 3, 3⟩] = some r ∧
      r ∈ [(⟨"a2a3", 10, 1⟩ : MCTSChild), ⟨"h7h5", 3, 3⟩] ∧
      ∀ d ∈ [(⟨"a2a3", 10, 1⟩ : MCTSChild), ⟨"h7h5", 3, 3⟩], d.visits ≤ r.visits :=
  C9_mcts_picks_most_visited [⟨"a2a3", 10, 1⟩, ⟨"h7h5", 3, 3⟩] (by decide)

/-- Python index resolution on an in-range non-negative index. -/
theorem pyIdx_ofNat (len : Nat) (i : Int) (h0 : 0 ≤ i) (h1 : i < (len : Int)) :
    pyIdx len i = some i.toNat := by
  unfold pyIdx
  rw [if_pos ⟨h0, h1⟩]

/-- Every row fetched from an 8x8 board has 8 cells. -/
theorem row_length (b : Board) (hb : isBoard b) (k : Nat) (hk : k < 8) :
    (b.getD k []).length = 8 := by
  have hkl : k < b.length := by rw [hb.1]; exact hk
  rw [List.getD_eq_getElem _ _ hkl]
  exact hb.2 _ (List.getElem_mem hkl)

/-- Value of `List.getD` after a `List.set` at an in-range position. -/
theorem getD_set_val {α : Type} (l : List α) (d : α) (i : Nat) (hi : i < l.length)
    (a : α) (n : Nat) :
    (l.set i a).getD n d = if n = i then a else l.getD n d := by
  rw [List.getD_eq_getD_get?, List.getD_eq_getD_get? l]
  by_cases h : n = i
  · subst h
    rw [List.get?_set_eq_of_lt _ hi]
    simp
  · rw [List.get?_set_ne _ _ (fun hh => h hh.symm)]
    simp [h]

/-- On an 8x8 board and in-range indices, the Python cell assignment
succeeds and is a `List.set` of the addressed row. -/
theorem pySetCell_eq (b : Board) (hb : isBoard b) (r c : Int) (v : Bool)
    (hr0 : 0 ≤ r) (hr8 : r < 8) (hc0 : 0 ≤ c) (hc8 : c < 8) :
    pySetCell b r c v =
      some (b.set r.toNat ((b.getD r.toNat []).set c.toNat v)) := by
  have hrt : r.toNat < 8 := by omega
  unfold pySetCell pySetNth
  rw [hb.1, pyIdx_ofNat 8 r hr0 (by exact_mod_cast hr8)]
  simp only [Option.some_bind]
  rw [row_length b hb r.toNat hrt, pyIdx_ofNat 8 c hc0 (by exact_mod_cast hc8)]
  rfl

/-- On an 8x8 board and in-range indices, the Python cell read succeeds
and gives the cell value. -/
theorem pyGet2_eq (b : Board) (hb : isBoard b) (r c : Int)
    (hr0 : 0 ≤ r) (hr8 : r < 8) (hc0 : 0 ≤ c) (hc8 : c < 8) :
    pyGet2 b r c = some (cell b r.toNat c.toNat) := by
  have hrt : r.toNat < 8 := by omega
  have hct : c.toNat < 8 := by omega
  have hrl : r.toNat < b.length := by rw [hb.1]; exact hrt
  have hcl : c.toNat < (b.getD r.toNat []).length := by
    rw [row_length b hb r.toNat hrt]; exact hct
  have hrow : b.get? r.toNat = some (b.getD r.toNat []) := by
    rw [List.get?_eq_get hrl]
    exact congrArg some (List.getD_eq_get _ _ hrl).symm
  have hval : (b.getD r.toNat []).get? c.toNat =
      some ((b.getD r.toNat []).getD c.toNat false) := by
    rw [List.get?_eq_get hcl]
    exact congrArg some (List.getD_eq_get _ _ hcl).symm
  unfold pyGet2 pyNth
  rw [hb.1, pyIdx_ofNat 8 r hr0 (by exact_mod_cast hr8)]
  simp only [Option.some_bind]
  rw [hrow]
  simp only [Option.some_bind]
  rw [row_length b hb r.toNat hrt, pyIdx_ofNat 8 c hc0 (by exact_mod_cast hc8)]
  simp only [Option.some_bind]
  rw [hval]
  rfl

/-- Setting one in-range cell keeps the board 8x8. -/
theorem isBoard_setCell (b : Board) (hb : isBoard b) (k j : Nat) (hk : k < 8)
    (v : Bool) : isBoard (b.set k ((b.getD k []).set j v)) := by
  constructor
  · rw [List.length_set]; exact hb.1
  · intro row hrow
    rcases List.mem_or_eq_of_mem_set hrow with h | h
    · exact hb.2 _ h
    · subst h
      rw [List.length_set]
      exact row_length b hb k hk

/-- Cell values after a single in-range cell assignment. -/
theorem cell_setCell (b : Board) (hb : isBoard b) (k j : Nat)
    (hk : k < 8) (hj : j < 8) (v : Bool) (r c : Nat) (hr : r < 8) (hc : c < 8) :
    cell (b.set k ((b.getD k []).set j v)) r c =
      if r = k ∧ c = j then v else cell b r c := by
  have hkl : k < b.length := by rw [hb.1]; exact hk
  have hjl : j < (b.getD k []).length := by
    rw [row_length b hb k hk]; exact hj
  unfold cell
  rw [getD_set_val b [] k hkl _ r]
  by_cases hrk : r = k
  · subst hrk
    rw [if_pos rfl, getD_set_val _ false j hjl v c]
    by_cases hcj : c = j
    · simp [hcj]
    · simp [hcj]
  · simp [hrk]

/-- CLAIM C7.  If the two bitmaps are disjoint then they stay disjoint
after `execute_move` with any well-formed 4-character move string: the
destination square ends up white-only (a present opponent pawn is
captured first), the source square is vacated, and no other square
changes. -/
theorem C7_execute_move_preserves_disjoint (move : String)
    (own opp own2 opp2 : Board) (ho : isBoard own) (hp : isBoard opp)
    (hm : wellFormedMove move) (hd : disjointB own opp)
    (he : execute_move move own opp = some (own2, opp2)) :
    disjointB own2 opp2 := by
  obtain ⟨-, rf, cf, rt, ct, hrf0, hrf8, hcf0, hcf8, hrt0, hrt8, hct0, hct8,
    hcv1, hcv2⟩ := hm
  unfold execute_move at he
  rw [hcv1, hcv2] at he
  simp only [Option.some_bind] at he
  rw [pySetCell_eq own ho rf cf false hrf0 hrf8 hcf0 hcf8,
    pyGet2_eq opp hp rt ct hrt0 hrt8 hct0 hct8] at he
  simp only [Option.some_bind] at he
  have hrft : rf.toNat < 8 := by omega
  have hcft : cf.toNat < 8 := by omega
  have hrtt : rt.toNat < 8 := by omega
  have hctt : ct.toNat < 8 := by omega
  set own1 := own.set rf.toNat ((own.getD rf.toNat []).set cf.toNat false) with hown1
  have ho1 : isBoard own1 := isBoard_setCell own ho _ _ hrft false
  have hcell1 : ∀ r c : Nat, r < 8 → c < 8 →
      cell own1 r c = if r = rf.toNat ∧ c = cf.toNat then false else cell own r c :=
    fun r c hr hc => cell_setCell own ho _ _ hrft hcft false r c hr hc
  by_cases hocc : cell opp rt.toNat ct.toNat = true
  · rw [hocc] at he
    simp only [if_pos rfl, reduceIte] at he
    rw [pySetCell_eq opp hp rt ct false hrt0 hrt8 hct0 hct8] at he
    simp only [Option.some_bind] at he
    rw [pySetCell_eq own1 ho1 rt ct true hrt0 hrt8 hct0 hct8] at he
    simp only [Option.map_some', Option.some.injEq, Prod.mk.injEq] at he
    obtain ⟨he1, he2⟩ := he
    intro r hr c hc
    rw [← he1, ← he2]
    rw [cell_setCell own1 ho1 _ _ hrtt hctt true r c hr hc,
      cell_setCell opp hp _ _ hrtt hctt false r c hr hc]
    by_cases hdst : r = rt.toNat ∧ c = ct.toNat
    · simp [hdst]
    · rw [if_neg hdst, if_neg hdst, hcell1 r c hr hc]
      by_cases hsrc : r = rf.toNat ∧ c = cf.toNat
      · simp [hsrc]
      · rw [if_neg hsrc]
        exact hd r hr c hc
  · have hocc2 : cell opp rt.toNat ct.toNat = false := by
      simpa using hocc
    rw [hocc2] at he
    simp only [Bool.false_eq_true, if_false, Option.some_bind] at he
    rw [pySetCell_eq own1 ho1 rt ct true hrt0 hrt8 hct0 hct8] at he
    simp only [Option.map_some', Option.some.injEq, Prod.mk.injEq] at he
    obtain ⟨he1, he2⟩ := he
    intro r hr c hc
    rw [← he1, ← he2]
    rw [cell_setCell own1 ho1 _ _ hrtt hctt true r c hr hc]
    by_cases hdst : r = rt.toNat ∧ c = ct.toNat
    · rw [if_pos hdst, hdst.1, hdst.2]
      intro hcontra
      rw [hocc2] at hcontra
      exact absurd hcontra.2 (by simp)
    · rw [if_neg hdst, hcell1 r c hr hc]
      by_cases hsrc : r = rf.toNat ∧ c = cf.toNat
      · simp [hsrc]
      · rw [if_neg hsrc]
        exact hd r hr c hc

/-- CLAIM C7, witness: the quiet advance a2a3 against a black pawn on h7
keeps the bitmaps disjoint. -/
theorem C7_witness : disjointB (oneAt 5 0) (oneAt 1 7) :=
  C7_execute_move_preserves_disjoint "a2a3" (oneAt 6 0) (oneAt 1 7)
    (oneAt 5 0) (oneAt 1 7) (by decide) (by decide)
    ⟨by decide, 6, 0, 5, 0, by decide, by decide, by decide, by decide,
      by decide, by decide, by decide, by decide, by decide, by decide⟩
    (by decide) (by decide)

/-- The White root loop only ever returns its incoming best move or one
of the moves it scanned. -/
theorem iterLoopW_mem (clock : Nat → Bool)
    (f : Board → Board → XS → XS → SState → XS × SState)
    (rest : List String) :
    ∀ (w b : Board) (bm : Option String) (bs α β : XS) (s : SState),
      (iterLoopW clock f rest w b bm bs α β s).1 = bm ∨
        ∃ m ∈ rest, (iterLoopW clock f rest w b bm bs α β s).1 = some m := by
  induction rest with
  | nil => intro w b bm bs α β s; left; rfl
  | cons mv tail ih =>
    intro w b bm bs α β s
    simp only [iterLoopW]
    by_cases ht : (checkTime clock s).1 = true
    · rw [if_pos ht]; left; rfl
    · rw [if_neg ht]
      by_cases hlt : XS.lt bs (f (execT mv w b).1 (execT mv w b).2 α β (checkTime clock s).2).1 = true
      · rw [if_pos hlt]
        by_cases hcut : XS.le β (XS.max α
            (f (execT mv w b).1 (execT mv w b).2 α β (checkTime clock s).2).1) = true
        · rw [if_pos hcut]
          right
          exact ⟨mv, List.mem_cons_self mv tail, rfl⟩
        · rw [if_neg hcut]
          rcases ih w b (some mv) _ _ _ _ with h | ⟨m, hm, hh⟩
          · right; exact ⟨mv, List.mem_cons_self mv tail, h⟩
          · right; exact ⟨m, List.mem_cons_of_mem mv hm, hh⟩
      · rw [if_neg hlt]
        by_cases hcut : XS.le β (XS.max α bs) = true
        · rw [if_pos hcut]; left; rfl
        · rw [if_neg hcut]
          rcases ih w b bm _ _ _ _ with h | ⟨m, hm, hh⟩
          · left; exact h
          · right; exact ⟨m, List.mem_cons_of_mem mv hm, hh⟩

/-- The Black root loop only ever returns its incoming best move or one
of the moves it scanned. -/
theorem iterLoopB_mem (clock : Nat → Bool)
    (f : Board → Board → XS → XS → SState → XS × SState)
    (rest : List String) :
    ∀ (w b : Board) (bm : Option String) (bs α β : XS) (s : SState),
      (iterLoopB clock f rest w b bm bs α β s).1 = bm ∨
        ∃ m ∈ rest, (iterLoopB clock f rest w b bm bs α β s).1 = some m := by
  induction rest with
  | nil => intro w b bm bs α β s; left; rfl
  | cons mv tail ih =>
    intro w b bm bs α β s
    simp only [iterLoopB]
    by_cases ht : (checkTime clock s).1 = true
    · rw [if_pos ht]; left; rfl
    · rw [if_neg ht]
      by_cases hlt : XS.lt (f (execT mv b w).2 (execT mv b w).1 α β (checkTime clock s).2).1 bs = true
      · rw [if_pos hlt]
        by_cases hcut : XS.le (XS.min β
            (f (execT mv b w).2 (execT mv b w).1 α β (checkTime clock s).2).1) α = true
        · rw [if_pos hcut]
          right
          exact ⟨mv, List.mem_cons_self mv tail, rfl⟩
        · rw [if_neg hcut]
          rcases ih w b (some mv) _ _ _ _ with h | ⟨m, hm, hh⟩
          · right; exact ⟨mv, List.mem_cons_self mv tail, h⟩
          · right; exact ⟨m, List.mem_cons_of_mem mv hm, hh⟩
      · rw [if_neg hlt]
        by_cases hcut : XS.le (XS.min β bs) α = true
        · rw [if_pos hcut]; left; rfl
        · rw [if_neg hcut]
          rcases ih w b bm _ _ _ _ with h | ⟨m, hm, hh⟩
          · left; exact h
          · right; exact ⟨m, List.mem_cons_of_mem mv hm, hh⟩

/-- When legal moves exist, the root search returns `none` or one of
them. -/
theorem iterSearch_mem (clock : Nat → Bool) (role : String) (w b : Board)
    (d : Nat) (s : SState) (h : movesForRole role w b ≠ []) :
    (_iterative_search clock role w b d s).1 = none ∨
      ∃ m ∈ movesForRole role w b,
        (_iterative_search clock role w b d s).1 = some m := by
  have hne : (movesForRole role w b).isEmpty = false := by
    simpa [List.isEmpty_iff] using h
  unfold _iterative_search
  simp only [hne, Bool.false_eq_true, if_false]
  by_cases hr : role = "White"
  · rw [if_pos hr]
    exact iterLoopW_mem clock _ _ w b none _ _ _ s
  · rw [if_neg hr]
    exact iterLoopB_mem clock _ _ w b none _ _ _ s

/-- The iterative-deepening loop keeps the best move inside the legal
move list. -/
theorem deepenLoop_mem (clock : Nat → Bool) (role : String) (w b : Board)
    (depths : List Nat) :
    ∀ (bm : String) (bs : XS) (dr : Nat) (s : SState),
      movesForRole role w b ≠ [] → bm ∈ movesForRole role w b →
      (deepenLoop clock role w b depths bm bs dr s).1 ∈ movesForRole role w b := by
  induction depths with
  | nil => intro bm bs dr s _ hbm; exact hbm
  | cons d tail ih =>
    intro bm bs dr s hne hbm
    simp only [deepenLoop]
    rcases iterSearch_mem clock role w b d s hne with hnone | ⟨m, hm, hsome⟩
    · rw [hnone]
      by_cases ht : (checkTime clock (_iterative_search clock role w b d s).2.2).1 = true
      · rw [if_pos ht]; exact hbm
      · rw [if_neg ht]; exact ih bm bs dr _ hne hbm
    · rw [hsome]
      by_cases ht : (checkTime clock (_iterative_search clock role w b d s).2.2).1 = true
      · rw [if_pos ht]; exact hm
      · rw [if_neg ht]; exact ih m _ d _ hne hm

/-- The head default of a nonempty list is its first element. -/
theorem headD_mem {α : Type} (l : List α) (d : α) (h : l ≠ []) : l.headD d ∈ l := by
  cases l with
  | nil => exact absurd rfl h
  | cons a tail => exact List.mem_cons_self a tail

/-- CLAIM C2.  Whenever the agent's role has at least one legal move,
`make_move` returns a member of that legal move list — for every clock
oracle, so in particular for arbitrarily small time budgets where every
deadline check fires; the "win: ..." verdict and `None` are impossible,
and no timeout is propagated (the only raise in agent.py lives in the
unused module-level `minimax`; `_alpha_beta` returns the static
evaluation on deadline overrun instead). -/
theorem C2_make_move_returns_legal_move (clock : Nat → Bool) (role : String)
    (w b : Board) (mc : Nat) (s : SState)
    (h : movesForRole role w b ≠ []) :
    (make_move clock role w b mc s).1 ∈ movesForRole role w b := by
  have hne : (movesForRole role w b).isEmpty = false := by
    simpa [List.isEmpty_iff] using h
  unfold make_move
  simp only [hne, Bool.false_eq_true, if_false]
  cases hpro : _find_immediate_promotion role (movesForRole role w b) with
  | some wm =>
    simp only []
    exact List.mem_of_find?_eq_some hpro
  | none =>
    simp only []
    by_cases hexit : pyLower (deepenLoop clock role w b
        ((List.range (if mc < 10 then 5 else 11)).map (· + 1))
        ((movesForRole role w b).headD "")
        (if role = "White" then XS.ninf else XS.pinf) 1 s).1 ≠ "exit"
    · rw [if_pos hexit]
      exact deepenLoop_mem clock role w b _ _ _ _ _ h (headD_mem _ _ h)
    · rw [if_neg hexit]
      exact deepenLoop_mem clock role w b _ _ _ _ _ h (headD_mem _ _ h)

/-- CLAIM C2, witness: with a time budget that is already exhausted at
every deadline check (the 0.01s case), the agent at the two-pawn position
still answers with a legal move. -/
theorem C2_witness :
    movesForRole "White" wA2 bH7 ≠ [] ∧
      (make_move lateClock "White" wA2 bH7 0 s0).1 ∈ movesForRole "White" wA2 bH7 :=
  ⟨by decide, C2_make_move_returns_legal_move lateClock "White" wA2 bH7 0 s0 (by decide)⟩

end TwoFlags
